import Mathlib

/-!
Verification development for the wedding-budget-tracker application
(single source file `src/App.jsx`).

The relevant parts of the program are shallowly embedded below:

* JavaScript numbers that hold currency amounts are modelled as `Rat`
  (exact rationals; the claims under study do not depend on IEEE-754
  representation details).
* JavaScript objects used as key→record mappings by the realtime store
  are modelled as association lists `List (κ × α)` in insertion order,
  with `alGet` / `alSet` / `alRemove` mirroring read / `set` / `remove`.
* `Option` models absent (`undefined` / non-existent) values; the JS
  operators `??` and truthiness tests on objects map to `Option.getD`
  and `Option` case analysis respectively.
* Strings are modelled as Lean `String`, with character-list helpers
  for the operations the source uses (`replace`, `trim`, `toLowerCase`,
  `includes`, CSV quoting).
-/

set_option linter.unnecessarySimpa false

namespace WeddingBudget

/-! ## Generic association-list store primitives -/

/-- Read the record stored under key `k` (first match, as JS property lookup
on objects built without duplicate keys). -/
def alGet {κ α : Type} [DecidableEq κ] (k : κ) (l : List (κ × α)) : Option α :=
  (l.find? (fun p => p.1 = k)).map (·.2)

/-- Overwrite-or-append write at key `k`, preserving insertion order, as the
store's `set` primitive behaves on a key→record mapping. -/
def alSet {κ α : Type} [DecidableEq κ] (k : κ) (v : α) (l : List (κ × α)) : List (κ × α) :=
  if l.any (fun p => p.1 = k) then
    l.map (fun p => if p.1 = k then (k, v) else p)
  else
    l ++ [(k, v)]

/-- Delete the record stored under key `k`, as the store's `remove` primitive. -/
def alRemove {κ α : Type} [DecidableEq κ] (k : κ) (l : List (κ × α)) : List (κ × α) :=
  l.filter (fun p => p.1 ≠ k)

theorem alGet_alSet_self {κ α : Type} [DecidableEq κ] (k : κ) (v : α) (l : List (κ × α)) :
    alGet k (alSet k v l) = some v := by
  induction l with
  | nil => simp [alGet, alSet]
  | cons p l ih =>
    by_cases hp : p.1 = k
    · simp [alGet, alSet, hp, List.find?]
    · simp only [alSet, List.any_cons] at *
      by_cases hl : l.any (fun p => p.1 = k)
      · simpa [alGet, alSet, hp, hl, List.find?] using ih
      · simpa [alGet, alSet, hp, hl, List.find?] using ih

theorem alGet_alRemove_self {κ α : Type} [DecidableEq κ] (k : κ) (l : List (κ × α)) :
    alGet k (alRemove k l) = none := by
  induction l with
  | nil => simp [alGet, alRemove]
  | cons p l ih =>
    by_cases hp : p.1 = k
    · simpa [alGet, alRemove, hp] using ih
    · simpa [alGet, alRemove, hp, List.find?] using ih

/-! ## String helpers used by the source -/

/-- Model of `email.replace(/\./g, ",")`: every `.` character becomes `,`. -/
def sanitizeChars (l : List Char) : List Char :=
  l.map (fun c => if c = '.' then ',' else c)

/-- String-level wrapper of `sanitizeChars`. -/
def sanitizeEmail (e : String) : String :=
  ⟨sanitizeChars e.data⟩

/-- Model of `String.prototype.trim`: strip leading and trailing whitespace. -/
def trimChars (l : List Char) : List Char :=
  (((l.dropWhile Char.isWhitespace).reverse.dropWhile Char.isWhitespace)).reverse

/-- String-level wrapper of `trimChars`. -/
def trimStr (s : String) : String :=
  ⟨trimChars s.data⟩

/-- Model of `String.prototype.toLowerCase` (ASCII-adequate). -/
def lowerStr (s : String) : String :=
  ⟨s.data.map Char.toLower⟩

/-- Decide whether `pre` is a prefix of `l`. -/
def isPrefixB (pre l : List Char) : Bool :=
  match pre, l with
  | [], _ => true
  | _ :: _, [] => false
  | a :: as, b :: bs => a == b && isPrefixB as bs

/-- Model of `String.prototype.includes`: `needle` occurs contiguously in
`haystack`. -/
def hasSub (needle haystack : List Char) : Bool :=
  match haystack with
  | [] => needle.isEmpty
  | _ :: t => isPrefixB needle haystack || hasSub needle t

/-- String-level wrapper of `hasSub`. -/
def includesStr (haystack needle : String) : Bool :=
  hasSub needle.data haystack.data

/-- Lexicographic order on character lists (model of the code-unit order
that `localeCompare` induces on the plain ASCII date strings in use). -/
def charListLe : List Char → List Char → Bool
  | [], _ => true
  | _ :: _, [] => false
  | a :: as, b :: bs => if a = b then charListLe as bs else decide (a < b)

/-- String-level wrapper of `charListLe`. -/
def strLeB (a b : String) : Bool :=
  charListLe a.data b.data

/-! ## Data model

Local (normalized) records carry the injected `id` / `uid` key; stored
records model what sits in the realtime store.  A stored record's own
`id` field is `Option String` because the store can hold records with or
without one, and the adapter's `{ id, ...e }` spread gives the record's
own field precedence over the injected key. -/

/-- Category record as stored and as seeded (`{ id, name, icon, budget }`). -/
structure CatRec where
  id : String
  name : String
  icon : String
  budget : Rat
deriving DecidableEq

/-- Expense record as stored under `expenses/{key}` (the app writes it
without an `id` field; `id` is `Option` to model the `{ id, ...e }` spread). -/
structure ExpStored where
  id : Option String
  category : String
  description : String
  vendor : String
  amount : Rat
  status : String
  date : String
  addedBy : String
  addedAt : Int
deriving DecidableEq

/-- Normalized (local-state) expense, after key injection. -/
structure Expense where
  id : String
  category : String
  description : String
  vendor : String
  amount : Rat
  status : String
  date : String
  addedBy : String
  addedAt : Int
deriving DecidableEq

/-- Guest record as stored. -/
structure GuestStored where
  id : Option String
  name : String
  rsvp : String
deriving DecidableEq

/-- Normalized guest. -/
structure Guest where
  id : String
  name : String
  rsvp : String
deriving DecidableEq

/-- Vendor record as stored. -/
structure VendorStored where
  id : Option String
  name : String
  category : String
  phone : String
  email : String
  notes : String
deriving DecidableEq

/-- Normalized vendor. -/
structure Vendor where
  id : String
  name : String
  category : String
  phone : String
  email : String
  notes : String
deriving DecidableEq

/-- Member record as stored under `members/{uid}` (the app writes
`{ email, name, role, joinedAt }`; `uid` is `Option` for the spread model). -/
structure MemberStored where
  uid : Option String
  email : String
  name : String
  role : String
  joinedAt : Int
deriving DecidableEq

/-- Normalized member, after `uid` key injection. -/
structure Member where
  uid : String
  email : String
  name : String
  role : String
  joinedAt : Int
deriving DecidableEq

/-- The nine default seed categories (`DEFAULT_CATEGORIES`). -/
def DEFAULT_CATEGORIES : List CatRec :=
  [ { id := "venue", name := "Venue", icon := "🏛", budget := 0 },
    { id := "catering", name := "Catering", icon := "🍽", budget := 0 },
    { id := "decoration", name := "Decoration", icon := "💐", budget := 0 },
    { id := "photography", name := "Photography", icon := "📸", budget := 0 },
    { id := "outfit", name := "Outfit & Attire", icon := "👗", budget := 0 },
    { id := "invitations", name := "Invitations", icon := "💌", budget := 0 },
    { id := "music", name := "Music / DJ", icon := "🎵", budget := 0 },
    { id := "transport", name := "Transportation", icon := "🚗", budget := 0 },
    { id := "misc", name := "Miscellaneous", icon := "✨", budget := 0 } ]

/-! ## Derived view model -/

/-- Model of `expenses.reduce((s, e) => s + e.amount, 0)`. -/
def totalSpent (expenses : List Expense) : Rat :=
  expenses.foldl (fun s e => s + e.amount) 0

/-- Model of the `pct` computation:
`totalBudget > 0 ? Math.min((totalSpent / totalBudget) * 100, 100) : 0`. -/
def pct (totalBudget : Rat) (expenses : List Expense) : Rat :=
  if totalBudget > 0 then min (totalSpent expenses / totalBudget * 100) 100 else 0

/-- The dashboard's over-budget warning condition: the render chooses the
`"Over budget!"` text via `pct > 100`. -/
def overBudgetCondition (totalBudget : Rat) (expenses : List Expense) : Bool :=
  pct totalBudget expenses > 100

/-- Model of the dashboard warning render
`pct > 90 && (pct > 100 ? "Over budget!" : "Approaching budget limit")`:
`none` when no warning is shown, otherwise the displayed text. -/
def budgetWarning (totalBudget : Rat) (expenses : List Expense) : Option String :=
  if pct totalBudget expenses > 90 then
    some (if pct totalBudget expenses > 100 then "Over budget!" else "Approaching budget limit")
  else
    none

/-- Search predicate of the expense filter:
`e.description.toLowerCase().includes(q) || e.vendor.toLowerCase().includes(q)`
with `q = searchTerm.toLowerCase()`. -/
def matchesSearch (searchTerm : String) (e : Expense) : Bool :=
  includesStr (lowerStr e.description) (lowerStr searchTerm) ||
    includesStr (lowerStr e.vendor) (lowerStr searchTerm)

/-- Stable insertion step for the descending-by-date-string sort; the JS
comparator is `(a, b) => (b.date || "").localeCompare(a.date || "")`. -/
def insertDateDesc (e : Expense) : List Expense → List Expense
  | [] => [e]
  | x :: xs => if strLeB e.date x.date then x :: insertDateDesc e xs else e :: x :: xs

/-- Sort a list of expenses descending by date string (model of
`list.sort((a, b) => (b.date || "").localeCompare(a.date || ""))`). -/
def sortDateDesc (l : List Expense) : List Expense :=
  l.foldr insertDateDesc []

/-- Model of the `filteredExpenses` computation, including its effect on the
source array.  In the source, `let list = expenses` aliases the state array;
each active filter replaces `list` by a fresh array (`Array.prototype.filter`
copies), but `Array.prototype.sort` sorts `list` in place.  The first
component is the returned list; the second is the `expenses` array after the
computation (mutated in place exactly when no filter ran, because then
`list` still aliases `expenses`). -/
def filteredExpensesRun (expenses : List Expense)
    (filterCat filterStatus searchTerm : String) : List Expense × List Expense :=
  let list0 := expenses
  let list1 := if filterCat ≠ "all" then list0.filter (fun e => e.category = filterCat) else list0
  let list2 := if filterStatus ≠ "all" then list1.filter (fun e => e.status = filterStatus) else list1
  let list3 := if searchTerm ≠ "" then list2.filter (matchesSearch searchTerm) else list2
  let sorted := sortDateDesc list3
  (sorted,
    if filterCat = "all" ∧ filterStatus = "all" ∧ searchTerm = "" then sorted else expenses)

/-! ## CSV export -/

/-- Double every internal quote character of a cell
(`String(c).replace(/"/g, s)` with `s` a doubled quote). -/
def escapeQuotes : List Char → List Char
  | [] => []
  | c :: cs => if c = '\"' then '\"' :: '\"' :: escapeQuotes cs else c :: escapeQuotes cs

/-- A CSV cell as emitted by the exporter: quote-wrapped with internal
quotes doubled. -/
def escapeField (f : List Char) : List Char :=
  '\"' :: (escapeQuotes f ++ ['\"'])

/-- Model of `Array.prototype.join` with a one-character separator. -/
def joinSep (sep : Char) : List (List Char) → List Char
  | [] => []
  | [x] => x
  | x :: y :: xs => x ++ sep :: joinSep sep (y :: xs)

/-- Two-digit zero-padded rendering of `n % 100`. -/
def pad2 (n : Nat) : String :=
  if n < 10 then "0" ++ toString n else toString n

/-- Model of `Number.prototype.toFixed(2)`: round to the nearest multiple of
1/100 (ties toward the larger value) and print two decimals. -/
def toFixed2 (q : Rat) : String :=
  let n : Int := (q * 100 + 1/2).floor
  if n < 0 then
    "-" ++ toString ((-n).toNat / 100) ++ "." ++ pad2 ((-n).toNat % 100)
  else
    toString (n.toNat / 100) ++ "." ++ pad2 (n.toNat % 100)

/-- Model of `Object.fromEntries(categories.map(c => [c.id, c.name]))[x] || x`:
`fromEntries` keeps the last entry for a duplicated id, and `||` falls back
to the raw id when the looked-up name is absent or is the empty string. -/
def resolveCatName (categories : List CatRec) (catId : String) : String :=
  match (categories.reverse.find? (fun c => c.id = catId)).map (·.name) with
  | none => catId
  | some n => if n = "" then catId else n

/-- Modelled from the spec wording, for comparison with `resolveCatName`:
the category id resolved to its display name, falling back to the raw id
only when no category matches. -/
def specResolveCatName (categories : List CatRec) (catId : String) : String :=
  match categories.find? (fun c => c.id = catId) with
  | none => catId
  | some c => c.name

/-- The header row and one row per expense, as the source builds them. -/
def csvRows (expenses : List Expense) (categories : List CatRec) : List (List String) :=
  ["Category", "Description", "Vendor", "Amount", "Status", "Date"] ::
    expenses.map (fun e =>
      [resolveCatName categories e.category, e.description, e.vendor,
        toFixed2 e.amount, e.status, e.date])

/-- One encoded CSV record: `r.map((c) => quoted).join(",")`. -/
def encodeCells (cells : List (List Char)) : List Char :=
  joinSep ',' (cells.map escapeField)

/-- The encoded CSV text: `rows.map(encodeRecord).join("\n")`. -/
def encodeTable (rows : List (List (List Char))) : List Char :=
  joinSep '\n' (rows.map encodeCells)

/-- Full CSV text built by `exportCSV`: every cell quoted with internal
quotes doubled, cells joined by `,`, rows joined by a newline. -/
def exportCSV (expenses : List Expense) (categories : List CatRec) : String :=
  ⟨encodeTable ((csvRows expenses categories).map (fun r => r.map String.data))⟩

/-- Parse the body of a quoted CSV cell, after its opening quote: a doubled
quote is a literal quote, a lone quote closes the cell.  Returns the cell
content and the remaining input, or `none` for an unterminated cell. -/
def parseQuotedBody : List Char → Option (List Char × List Char)
  | [] => none
  | c :: rest =>
    if c = '\"' then
      match rest with
      | c2 :: rest2 =>
        if c2 = '\"' then (parseQuotedBody rest2).map (fun p => ('\"' :: p.1, p.2))
        else some ([], rest)
      | [] => some ([], rest)
    else
      (parseQuotedBody rest).map (fun p => (c :: p.1, p.2))

/-- Fuel-indexed parser for the exporter's fully-quoted CSV format: cells
separated by `,`, rows separated by a newline, quotes un-doubled; one unit
of fuel per cell. -/
def parseCSV : Nat → List Char → Option (List (List (List Char)))
  | 0, _ => none
  | fuel + 1, input =>
    match input with
    | '\"' :: rest =>
      match parseQuotedBody rest with
      | none => none
      | some (field, rest2) =>
        match rest2 with
        | [] => some [[field]]
        | ',' :: rest3 =>
          match parseCSV fuel rest3 with
          | some (row :: rows) => some ((field :: row) :: rows)
          | _ => none
        | '\n' :: rest3 =>
          match parseCSV fuel rest3 with
          | some rows => some ([field] :: rows)
          | none => none
        | _ => none
    | _ => none

/-- String-level CSV parse of a whole text. -/
def parseCSVtext (s : String) : Option (List (List String)) :=
  (parseCSV (s.data.length + 1) s.data).map
    (fun rows => rows.map (fun r => r.map (fun c => (⟨c⟩ : String))))

/-! ## Household store adapter (snapshot normalization) -/

/-- Normalization of one stored expense by `{ id, ...e }`: the injected key
is overridden by the record's own `id` field when that field is present,
because the spread comes after the key. -/
def normExpense (key : String) (e : ExpStored) : Expense :=
  { id := e.id.getD key, category := e.category, description := e.description,
    vendor := e.vendor, amount := e.amount, status := e.status, date := e.date,
    addedBy := e.addedBy, addedAt := e.addedAt }

/-- Model of `Object.entries(d.expenses).map(([id, e]) => ({ id, ...e }))`. -/
def normalizeExpenses (m : List (String × ExpStored)) : List Expense :=
  m.map (fun p => normExpense p.1 p.2)

/-- Normalization of one stored guest by `{ id, ...g }`. -/
def normGuest (key : String) (g : GuestStored) : Guest :=
  { id := g.id.getD key, name := g.name, rsvp := g.rsvp }

/-- Model of `Object.entries(d.guests).map(([id, g]) => ({ id, ...g }))`. -/
def normalizeGuests (m : List (String × GuestStored)) : List Guest :=
  m.map (fun p => normGuest p.1 p.2)

/-- Normalization of one stored vendor by `{ id, ...v }`. -/
def normVendor (key : String) (v : VendorStored) : Vendor :=
  { id := v.id.getD key, name := v.name, category := v.category,
    phone := v.phone, email := v.email, notes := v.notes }

/-- Model of `Object.entries(d.vendors).map(([id, v]) => ({ id, ...v }))`. -/
def normalizeVendors (m : List (String × VendorStored)) : List Vendor :=
  m.map (fun p => normVendor p.1 p.2)

/-- Normalization of one stored member by `{ uid: id, ...m }`. -/
def normMember (key : String) (m : MemberStored) : Member :=
  { uid := m.uid.getD key, email := m.email, name := m.name,
    role := m.role, joinedAt := m.joinedAt }

/-- Model of `Object.entries(d.members).map(([id, m]) => ({ uid: id, ...m }))`. -/
def normalizeMembers (m : List (String × MemberStored)) : List Member :=
  m.map (fun p => normMember p.1 p.2)

/-- Normalization of the categories mapping: the source takes
`Object.values(d.categories)`, with no key injection at all. -/
def normalizeCategories (m : List (String × CatRec)) : List CatRec :=
  m.map (·.2)

/-- Hypothetical key-injected normalization of the categories mapping, for
comparison with `normalizeCategories`. -/
def categoriesKeyInjected (m : List (String × CatRec)) : List CatRec :=
  m.map (fun p => { p.2 with id := p.1 })

/-- A wedding-document snapshot as delivered by the subscription; `Option`
fields model absent (`undefined`) members of the document. -/
structure Snapshot where
  totalBudget : Option Rat
  costPerGuest : Option Rat
  darkMode : Option Bool
  categories : Option (List (String × CatRec))
  expenses : Option (List (String × ExpStored))
  guests : Option (List (String × GuestStored))
  vendors : Option (List (String × VendorStored))
  members : Option (List (String × MemberStored))
deriving DecidableEq

/-- The component state the snapshot handler writes. -/
structure AppState where
  totalBudget : Rat
  costPerGuest : Rat
  darkMode : Bool
  categories : List CatRec
  expenses : List Expense
  guests : List Guest
  vendors : List Vendor
  members : List Member
  dataLoaded : Bool
deriving DecidableEq

/-- Model of the `onValue` snapshot handler: `none` models
`!snap.exists()` (the handler returns without touching any state), `some d`
an existing snapshot.  Scalars default via `??`; a present categories
mapping is normalized values-only while an absent one leaves the previous
categories state; the other four mappings normalize with key injection and
reset to `[]` when absent; `dataLoaded` becomes true. -/
def applySnapshot (snap : Option Snapshot) (s : AppState) : AppState :=
  match snap with
  | none => s
  | some d =>
    { totalBudget := d.totalBudget.getD 30000
      costPerGuest := d.costPerGuest.getD 75
      darkMode := d.darkMode.getD false
      categories := match d.categories with
        | some m => normalizeCategories m
        | none => s.categories
      expenses := match d.expenses with
        | some m => normalizeExpenses m
        | none => []
      guests := match d.guests with
        | some m => normalizeGuests m
        | none => []
      vendors := match d.vendors with
        | some m => normalizeVendors m
        | none => []
      members := match d.members with
        | some m => normalizeMembers m
        | none => []
      dataLoaded := true }

/-! ## Identity resolver: invite consumption -/

/-- An invite record stored at `invites/{sanitizedEmail}`. -/
structure InviteRec where
  weddingId : String
  invitedBy : String
  invitedAt : Int
deriving DecidableEq

/-- A user profile record stored at `users/{uid}`. -/
structure ProfileRec where
  weddingId : String
  email : String
deriving DecidableEq

/-- The authenticated user as provided by the identity provider. -/
structure UserAuth where
  uid : String
  email : String
  displayName : Option String
deriving DecidableEq

/-- Store state relevant to invite consumption, plus the component's local
wedding-id state.  Member records are keyed by the pair
(wedding id, user id), mirroring the path `weddings/{wid}/members/{uid}`. -/
structure LinkState where
  users : List (String × ProfileRec)
  members : List ((String × String) × MemberStored)
  invites : List (String × InviteRec)
  localWeddingId : Option String
deriving DecidableEq

/-- Key under which `handleInvite` stores an invite:
`invites/${inviteEmail.trim().replace(/\./g, ",")}`. -/
def inviteCreateKey (inviteEmail : String) : String :=
  sanitizeEmail (trimStr inviteEmail)

/-- Key the invite-check effect reads: `user.email.replace(/\./g, ",")`. -/
def inviteConsumeKey (email : String) : String :=
  sanitizeEmail email

/-- Model of the invite-check effect run on authentication: guard on a
present non-empty email, look up `invites/{emailKey}`; if present, overwrite
the user's profile with the invited wedding id, write a `partner` member
record under that wedding, delete the invite, and set the local wedding id.
`now` stands for `Date.now()`. -/
def checkInvite (u : UserAuth) (now : Int) (st : LinkState) : LinkState :=
  if u.email = "" then st
  else
    let emailKey := inviteConsumeKey u.email
    match alGet emailKey st.invites with
    | none => st
    | some inv =>
      { users := alSet u.uid { weddingId := inv.weddingId, email := u.email } st.users
        members := alSet (inv.weddingId, u.uid)
          { uid := none, email := u.email, name := u.displayName.getD u.email,
            role := "partner", joinedAt := now } st.members
        invites := alRemove emailKey st.invites
        localWeddingId := some inv.weddingId }

/-! ## Actions -/

/-- Model of `deleteCat`: remove `categories/{id}`, then for each record of
the local expense state whose `category` equals the id, remove
`expenses/{e.id}`.  Returns the categories and expenses mappings after the
deletes. -/
def deleteCat (id : String) (localExpenses : List Expense)
    (categories : List (String × CatRec)) (expenses : List (String × ExpStored)) :
    List (String × CatRec) × List (String × ExpStored) :=
  (alRemove id categories,
    (localExpenses.filter (fun e => e.category = id)).foldl
      (fun acc e => alRemove e.id acc) expenses)

/-- Replace each maximal run of whitespace by a single `-`
(model of `.replace(/\s+/g, "-")`). -/
def collapseWs : List Char → List Char
  | [] => []
  | [c] => if c.isWhitespace then ['-'] else [c]
  | c1 :: c2 :: cs =>
    if c1.isWhitespace then
      if c2.isWhitespace then collapseWs (c2 :: cs)
      else '-' :: collapseWs (c2 :: cs)
    else c1 :: collapseWs (c2 :: cs)

/-- Model of `newCatName.trim().toLowerCase().replace(/\s+/g, "-")`. -/
def slugify (s : String) : String :=
  ⟨collapseWs ((trimChars s.data).map Char.toLower)⟩

/-- Model of `addCategory`: `suffix` stands for the time-derived
`Date.now().toString(36).slice(-4)`.  Returns the `(key, record)` written at
`categories/{id}`, or `none` when the trimmed name is blank (the action
bails out). -/
def addCategory (newCatName newCatIcon suffix : String) : Option (String × CatRec) :=
  if trimStr newCatName = "" then none
  else
    let catId := slugify newCatName ++ "-" ++ suffix
    some (catId,
      { id := catId, name := trimStr newCatName, icon := newCatIcon, budget := 0 })

/-- The categories object written at bootstrap:
`DEFAULT_CATEGORIES.reduce((acc, c) => { acc[c.id] = c; return acc; }, {})`,
i.e. each default category keyed by its own `id`, in seed order. -/
def seedCategoriesObject : List (String × CatRec) :=
  DEFAULT_CATEGORIES.map (fun c => (c.id, c))

/-! ## Sample data for witnesses and counterexamples -/

/-- An expense of 150 against a 100 budget. -/
def exOver : Expense :=
  { id := "e1", category := "venue", description := "Venue hire", vendor := "Grand Hall",
    amount := 150, status := "unpaid", date := "2024-01-01",
    addedBy := "a@b.com", addedAt := 0 }

/-- A paid decoration expense dated January. -/
def expJan : Expense :=
  { id := "a", category := "decoration", description := "Flowers", vendor := "Bloom Co",
    amount := 20, status := "paid", date := "2024-01-01",
    addedBy := "x@y.z", addedAt := 0 }

/-- An unpaid music expense dated June. -/
def expJun : Expense :=
  { id := "b", category := "music", description := "DJ Booking", vendor := "Bloom Co",
    amount := 30, status := "unpaid", date := "2024-06-01",
    addedBy := "x@y.z", addedAt := 0 }

/-! ## General facts about the derived view model -/

theorem pct_le_hundred (totalBudget : Rat) (expenses : List Expense) :
    pct totalBudget expenses ≤ 100 := by
  unfold pct
  split
  · exact min_le_right _ _
  · norm_num

theorem totalSpent_nonneg_from (expenses : List Expense)
    (h : ∀ e ∈ expenses, 0 ≤ e.amount) :
    ∀ init : Rat, 0 ≤ init → 0 ≤ expenses.foldl (fun s e => s + e.amount) init := by
  induction expenses with
  | nil => intro init h0; simpa using h0
  | cons e es ih =>
    intro init h0
    simp only [List.foldl_cons]
    exact ih (fun x hx => h x (List.mem_cons_of_mem _ hx)) _
      (add_nonneg h0 (h e (List.mem_cons_self _ _)))

theorem totalSpent_nonneg (expenses : List Expense)
    (h : ∀ e ∈ expenses, 0 ≤ e.amount) : 0 ≤ totalSpent expenses :=
  totalSpent_nonneg_from expenses h 0 le_rfl

theorem pct_exOver : pct 100 [exOver] = 100 := by
  simp only [pct, totalSpent, List.foldl_cons, List.foldl_nil, exOver]
  norm_num

/-- Claim C1 (code bug): the spec says the dashboard's over-budget warning
is computed from the unclamped ratio, firing whenever
totalSpent > totalBudget > 0.  In the source the warning text is chosen by
`pct > 100` where `pct` is already clamped by `Math.min(..., 100)`, so the
condition is false for every budget and expense list, and at the failing
input (totalBudget 100, one expense of 150) the dashboard shows
"Approaching budget limit" instead of "Over budget!". -/
theorem overBudget_warning_dead :
    (∀ totalBudget expenses, overBudgetCondition totalBudget expenses = false) ∧
      totalSpent [exOver] > 100 ∧ ((100 : Rat) > 0) ∧
      budgetWarning 100 [exOver] = some "Approaching budget limit" := by
  refine ⟨fun tb es => ?_, ?_, by norm_num, ?_⟩
  · exact decide_eq_false (not_lt.mpr (pct_le_hundred tb es))
  · simp only [totalSpent, List.foldl_cons, List.foldl_nil, exOver]
    norm_num
  · simp only [budgetWarning, pct_exOver]
    norm_num

/-- Claim C2 (code bug): the spec says the filtered/sorted list computation
must not mutate the source expenses state for any filter setting.  In the
source, `let list = expenses` aliases the state array and
`Array.prototype.sort` sorts in place, so with the all/all/empty setting
the source array is reordered (here `[expJan, expJun]` becomes
`[expJun, expJan]`), while an active filter leaves the source intact. -/
theorem filteredExpenses_mutates_source :
    (filteredExpensesRun [expJan, expJun] "all" "all" "").2 ≠ [expJan, expJun] ∧
      (filteredExpensesRun [expJan, expJun] "all" "all" "").2 = [expJun, expJan] ∧
      (filteredExpensesRun [expJan, expJun] "music" "all" "").2 = [expJan, expJun] := by
  exact ⟨by decide, by decide, by decide⟩

/-- Claim C9: for every household whose expense amounts are non-negative
(the data model's stated invariant), `pct` lies in the interval [0, 100],
for every total budget (clamped when spending exceeds the budget, zero when
the budget is not positive). -/
theorem percentUsed_in_range (totalBudget : Rat) (expenses : List Expense)
    (h : ∀ e ∈ expenses, 0 ≤ e.amount) :
    0 ≤ pct totalBudget expenses ∧ pct totalBudget expenses ≤ 100 := by
  refine ⟨?_, pct_le_hundred totalBudget expenses⟩
  unfold pct
  split
  · refine le_min ?_ (by norm_num)
    have hs := totalSpent_nonneg expenses h
    positivity
  · exact le_rfl

/-- Witness for C9 at an over-budget input: one expense of 150 against a
budget of 100. -/
theorem percentUsed_in_range_witness :
    0 ≤ pct 100 [exOver] ∧ pct 100 [exOver] ≤ 100 :=
  percentUsed_in_range 100 [exOver] (by decide)

/-! ## Invite consumption (claim C3) -/

theorem checkInvite_of_none (u : UserAuth) (now : Int) (st : LinkState)
    (h : alGet (inviteConsumeKey u.email) st.invites = none) :
    checkInvite u now st = st := by
  by_cases he : u.email = ""
  · simp [checkInvite, he]
  · simp [checkInvite, he, h]

/-- Claim C3: with an invite stored at the sanitized key of the user's
email and pointing at wedding `inv.weddingId`, one authentication deletes
the invite, writes a `partner` member record under that wedding, overwrites
the user's profile with that wedding id, and sets the local wedding id; a
second authentication finds no invite and changes nothing. -/
theorem invite_acceptance_idempotent_once (u : UserAuth) (now now2 : Int)
    (st : LinkState) (inv : InviteRec)
    (he : u.email ≠ "")
    (hinv : alGet (inviteConsumeKey u.email) st.invites = some inv) :
    alGet (inviteConsumeKey u.email) (checkInvite u now st).invites = none ∧
      alGet (inv.weddingId, u.uid) (checkInvite u now st).members =
        some { uid := none, email := u.email, name := u.displayName.getD u.email,
               role := "partner", joinedAt := now } ∧
      alGet u.uid (checkInvite u now st).users =
        some { weddingId := inv.weddingId, email := u.email } ∧
      (checkInvite u now st).localWeddingId = some inv.weddingId ∧
      checkInvite u now2 (checkInvite u now st) = checkInvite u now st := by
  have h1 : checkInvite u now st =
      { users := alSet u.uid { weddingId := inv.weddingId, email := u.email } st.users
        members := alSet (inv.weddingId, u.uid)
          { uid := none, email := u.email, name := u.displayName.getD u.email,
            role := "partner", joinedAt := now } st.members
        invites := alRemove (inviteConsumeKey u.email) st.invites
        localWeddingId := some inv.weddingId } := by
    simp [checkInvite, he, hinv]
  refine ⟨?_, ?_, ?_, ?_, ?_⟩
  · rw [h1]; exact alGet_alRemove_self _ _
  · rw [h1]; exact alGet_alSet_self _ _ _
  · rw [h1]; exact alGet_alSet_self _ _ _
  · rw [h1]
  · exact checkInvite_of_none u now2 _ (by rw [h1]; exact alGet_alRemove_self _ _)

/-- A pending invite pointing at wedding `w1`. -/
def sampleInvite : InviteRec := { weddingId := "w1", invitedBy := "owner@x.com", invitedAt := 5 }

/-- Store state holding only the pending invite for `p@q.com`. -/
def sampleLink : LinkState :=
  { users := [("u1", { weddingId := "w1", email := "owner@x.com" })]
    members := [(("w1", "u1"),
      { uid := none, email := "owner@x.com", name := "Owner", role := "owner", joinedAt := 0 })]
    invites := [("p@q,com", sampleInvite)]
    localWeddingId := none }

/-- The invited partner's authentication record. -/
def samplePartner : UserAuth := { uid := "u2", email := "p@q.com", displayName := none }

/-- Witness for C3 at a concrete store: the partner `p@q.com` consumes the
invite to wedding `w1`. -/
theorem invite_acceptance_idempotent_once_witness :
    alGet (inviteConsumeKey "p@q.com") (checkInvite samplePartner 7 sampleLink).invites = none ∧
      alGet ("w1", "u2") (checkInvite samplePartner 7 sampleLink).members =
        some { uid := none, email := "p@q.com", name := "p@q.com",
               role := "partner", joinedAt := 7 } ∧
      alGet "u2" (checkInvite samplePartner 7 sampleLink).users =
        some { weddingId := "w1", email := "p@q.com" } ∧
      (checkInvite samplePartner 7 sampleLink).localWeddingId = some "w1" ∧
      checkInvite samplePartner 8 (checkInvite samplePartner 7 sampleLink) =
        checkInvite samplePartner 7 sampleLink := by
  have h := invite_acceptance_idempotent_once samplePartner 7 8 sampleLink sampleInvite
    (by decide) (by decide)
  exact h

/-! ## Adapter normalization (claims C4, C5) -/

theorem list_map_congr {α β : Type} (l : List α) (f g : α → β)
    (h : ∀ a ∈ l, f a = g a) : l.map f = l.map g := by
  induction l with
  | nil => rfl
  | cons a as ih =>
    simp only [List.map_cons]
    rw [h a (List.mem_cons_self a as), ih fun x hx => h x (List.mem_cons_of_mem _ hx)]

/-- A category record stored under a key that differs from its own id. -/
def catMiskeyed : CatRec := { id := "other", name := "Venue", icon := "V", budget := 0 }

/-- An expense record that itself carries an `id` field. -/
def expStoredOwnId : ExpStored :=
  { id := some "z", category := "venue", description := "d", vendor := "v",
    amount := 1, status := "unpaid", date := "", addedBy := "", addedAt := 0 }

/-- An app-written stored expense (no own `id` field). -/
def expStoredPlain : ExpStored :=
  { id := none, category := "venue", description := "Venue hire", vendor := "Grand Hall",
    amount := 150, status := "unpaid", date := "2024-01-01",
    addedBy := "a@b.com", addedAt := 0 }

/-- Claim C4 counterexample: the categories mapping is normalized by
`Object.values` with no key injection, so a category stored under key
`"k1"` whose record carries id `"other"` yields a record whose id is
`"other"`, not the store key; and even for expenses the spread
`{ id, ...e }` lets a record's own `id` field override the injected key. -/
theorem categories_normalization_drops_key :
    (normalizeCategories [("k1", catMiskeyed)]).map (fun c => c.id) = ["other"] ∧
      (normalizeExpenses [("k2", expStoredOwnId)]).map (fun e => e.id) = ["z"] ∧
      ("other" : String) ≠ "k1" ∧ ("z" : String) ≠ "k2" := by
  exact ⟨by decide, by decide, by decide, by decide⟩

/-- Claim C4 (amended): expenses, guests, vendors and members are converted
to sequences in mapping order with the key injected as `id` (`uid` for
members) whenever the stored record does not itself carry that field — the
spread `{ id, ...e }` lets a record's own field win — while categories are
converted values-only, so a category's resulting `id` is whatever the
stored record carries. -/
theorem adapter_normalization_amended
    (me : List (String × ExpStored)) (mg : List (String × GuestStored))
    (mv : List (String × VendorStored)) (mm : List (String × MemberStored))
    (mc : List (String × CatRec))
    (he : ∀ p ∈ me, p.2.id = none) (hg : ∀ p ∈ mg, p.2.id = none)
    (hv : ∀ p ∈ mv, p.2.id = none) (hm : ∀ p ∈ mm, p.2.uid = none) :
    (normalizeExpenses me).map (fun e => e.id) = me.map (fun p => p.1) ∧
      (normalizeGuests mg).map (fun g => g.id) = mg.map (fun p => p.1) ∧
      (normalizeVendors mv).map (fun v => v.id) = mv.map (fun p => p.1) ∧
      (normalizeMembers mm).map (fun m => m.uid) = mm.map (fun p => p.1) ∧
      normalizeCategories mc = mc.map (fun p => p.2) := by
  refine ⟨?_, ?_, ?_, ?_, rfl⟩
  · rw [normalizeExpenses, List.map_map]
    exact list_map_congr me _ _ fun p hp => by
      simp [Function.comp, normExpense, he p hp]
  · rw [normalizeGuests, List.map_map]
    exact list_map_congr mg _ _ fun p hp => by
      simp [Function.comp, normGuest, hg p hp]
  · rw [normalizeVendors, List.map_map]
    exact list_map_congr mv _ _ fun p hp => by
      simp [Function.comp, normVendor, hv p hp]
  · rw [normalizeMembers, List.map_map]
    exact list_map_congr mm _ _ fun p hp => by
      simp [Function.comp, normMember, hm p hp]

/-- A stored guest without its own id field. -/
def guestStoredPlain : GuestStored := { id := none, name := "Ann", rsvp := "pending" }

/-- A stored vendor without its own id field. -/
def vendorStoredPlain : VendorStored :=
  { id := none, name := "Bloom Co", category := "florist", phone := "1",
    email := "b@c.d", notes := "" }

/-- A stored member without a `uid` field, as the app writes them. -/
def memberStoredPlain : MemberStored :=
  { uid := none, email := "o@x.y", name := "Owner", role := "owner", joinedAt := 0 }

/-- Witness for the amended C4 at singleton mappings. -/
theorem adapter_normalization_amended_witness :
    (normalizeExpenses [("ke", expStoredPlain)]).map (fun e => e.id) = ["ke"] ∧
      (normalizeGuests [("kg", guestStoredPlain)]).map (fun g => g.id) = ["kg"] ∧
      (normalizeVendors [("kv", vendorStoredPlain)]).map (fun v => v.id) = ["kv"] ∧
      (normalizeMembers [("km", memberStoredPlain)]).map (fun m => m.uid) = ["km"] ∧
      normalizeCategories [("kc", catMiskeyed)] = [catMiskeyed] := by
  have h := adapter_normalization_amended
    [("ke", expStoredPlain)] [("kg", guestStoredPlain)] [("kv", vendorStoredPlain)]
    [("km", memberStoredPlain)] [("kc", catMiskeyed)]
    (by decide) (by decide) (by decide) (by decide)
  simpa using h

/-- The initial component state (defaults plus one expense), used to show
what the snapshot handler leaves untouched. -/
def sampleState : AppState :=
  { totalBudget := 30000, costPerGuest := 75, darkMode := false,
    categories := DEFAULT_CATEGORIES, expenses := [expJan], guests := [],
    vendors := [], members := [], dataLoaded := false }

/-- An existing snapshot with every optional field absent. -/
def emptySnap : Snapshot :=
  { totalBudget := none, costPerGuest := none, darkMode := none,
    categories := none, expenses := none, guests := none,
    vendors := none, members := none }

/-- Claim C5 counterexample: a non-existent snapshot makes the handler
return early, leaving the previous state (here a non-empty expense list)
rather than producing a "no data" state with empty collections; and a
snapshot missing the categories mapping leaves the previous categories
(here the nine defaults) rather than an empty sequence. -/
theorem missing_snapshot_leaves_state :
    applySnapshot none sampleState = sampleState ∧
      sampleState.expenses ≠ [] ∧
      (applySnapshot (some emptySnap) sampleState).categories = DEFAULT_CATEGORIES ∧
      DEFAULT_CATEGORIES ≠ ([] : List CatRec) := by
  exact ⟨rfl, by decide, rfl, by decide⟩

/-- Claim C5 (amended): a non-existent snapshot leaves the component state
entirely unchanged (the handler returns early); an existing snapshot
missing optional scalars yields totalBudget 30000, costPerGuest 75,
darkMode false; missing expense/guest/vendor/member mappings each yield an
empty sequence, while a missing categories mapping keeps the previous
categories state; and an existing snapshot always sets `dataLoaded`. -/
theorem snapshot_defaults_amended (s : AppState) (d : Snapshot) :
    applySnapshot none s = s ∧
      (d.totalBudget = none → (applySnapshot (some d) s).totalBudget = 30000) ∧
      (d.costPerGuest = none → (applySnapshot (some d) s).costPerGuest = 75) ∧
      (d.darkMode = none → (applySnapshot (some d) s).darkMode = false) ∧
      (d.expenses = none → (applySnapshot (some d) s).expenses = []) ∧
      (d.guests = none → (applySnapshot (some d) s).guests = []) ∧
      (d.vendors = none → (applySnapshot (some d) s).vendors = []) ∧
      (d.members = none → (applySnapshot (some d) s).members = []) ∧
      (d.categories = none → (applySnapshot (some d) s).categories = s.categories) ∧
      (applySnapshot (some d) s).dataLoaded = true := by
  refine ⟨rfl, ?_, ?_, ?_, ?_, ?_, ?_, ?_, ?_, rfl⟩ <;>
    intro h <;> simp [applySnapshot, h]

/-- Witness for the amended C5 at the all-absent snapshot. -/
theorem snapshot_defaults_amended_witness :
    (applySnapshot (some emptySnap) sampleState).totalBudget = 30000 ∧
      (applySnapshot (some emptySnap) sampleState).expenses = [] ∧
      (applySnapshot (some emptySnap) sampleState).categories = sampleState.categories ∧
      (applySnapshot (some emptySnap) sampleState).dataLoaded = true := by
  obtain ⟨h0, h1, h2, h3, h4, h5, h6, h7, h8, h9⟩ :=
    snapshot_defaults_amended sampleState emptySnap
  exact ⟨h1 rfl, h4 rfl, h8 rfl, h9⟩

/-! ## Email sanitization (claim C6) -/

theorem sanitizeChars_inj (s t : List Char) (hs : ',' ∉ s) (ht : ',' ∉ t)
    (h : sanitizeChars s = sanitizeChars t) : s = t := by
  induction s generalizing t with
  | nil =>
    cases t with
    | nil => rfl
    | cons b bs => exact absurd h (by simp [sanitizeChars])
  | cons a as ih =>
    cases t with
    | nil => exact absurd h (by simp [sanitizeChars])
    | cons b bs =>
      simp only [sanitizeChars, List.map_cons, List.cons.injEq] at h
      obtain ⟨h1, h2⟩ := h
      have ha : a ≠ ',' := fun hh => hs (hh ▸ List.mem_cons_self a as)
      have hb : b ≠ ',' := fun hh => ht (hh ▸ List.mem_cons_self b bs)
      have has : ',' ∉ as := fun hh => hs (List.mem_cons_of_mem _ hh)
      have hbs : ',' ∉ bs := fun hh => ht (List.mem_cons_of_mem _ hh)
      have hab : a = b := by
        by_cases hpa : a = '.'
        · by_cases hpb : b = '.'
          · rw [hpa, hpb]
          · rw [if_pos hpa, if_neg hpb] at h1
            exact absurd h1.symm hb
        · by_cases hpb : b = '.'
          · rw [if_neg hpa, if_pos hpb] at h1
            exact absurd h1 ha
          · rwa [if_neg hpa, if_neg hpb] at h1
      rw [hab, ih bs has hbs h2]

/-- Claim C6 counterexample: the `.`→`,` substitution maps the two distinct
emails `a.b@x` and `a,b@x` to the same invite key, and because the creation
path trims the email before sanitizing while the consumption path does not,
the two paths disagree on an email with surrounding whitespace. -/
theorem sanitize_email_collision :
    sanitizeEmail "a.b@x" = sanitizeEmail "a,b@x" ∧ ("a.b@x" : String) ≠ "a,b@x" ∧
      inviteCreateKey " p@q.r" ≠ inviteConsumeKey " p@q.r" := by
  exact ⟨by decide, by decide, by decide⟩

/-- Claim C6 (amended): the invite-key sanitization is injective on emails
containing no comma, and the creation-path key (sanitized trimmed email)
equals the consumption-path key (sanitized email) for every email left
unchanged by trimming. -/
theorem sanitize_email_amended (s t e : String)
    (hs : ',' ∉ s.data) (ht : ',' ∉ t.data)
    (h : sanitizeEmail s = sanitizeEmail t) (he : trimStr e = e) :
    s = t ∧ inviteCreateKey e = inviteConsumeKey e := by
  constructor
  · have hd : sanitizeChars s.data = sanitizeChars t.data := congrArg String.data h
    have hst : s.data = t.data := sanitizeChars_inj _ _ hs ht hd
    cases s
    cases t
    exact congrArg String.mk hst
  · rw [inviteCreateKey, inviteConsumeKey, he]

/-- Witness for the amended C6. -/
theorem sanitize_email_amended_witness :
    ("a@b" : String) = "a@b" ∧ inviteCreateKey "x@y.z" = inviteConsumeKey "x@y.z" :=
  sanitize_email_amended "a@b" "a@b" "x@y.z" (by decide) (by decide) rfl (by decide)

/-! ## Category deletion cascade (claim C7) -/

theorem list_filter_congr {α : Type} (l : List α) (p q : α → Bool)
    (h : ∀ a ∈ l, p a = q a) : l.filter p = l.filter q := by
  induction l with
  | nil => rfl
  | cons a as ih =>
    simp only [List.filter_cons]
    rw [h a (List.mem_cons_self a as), ih fun x hx => h x (List.mem_cons_of_mem _ hx)]

theorem list_foldl_congr {α β : Type} (l : List α) (f g : β → α → β) (init : β)
    (h : ∀ b : β, ∀ a ∈ l, f b a = g b a) : l.foldl f init = l.foldl g init := by
  induction l generalizing init with
  | nil => rfl
  | cons a as ih =>
    simp only [List.foldl_cons]
    rw [h init a (List.mem_cons_self a as)]
    exact ih _ fun b x hx => h b x (List.mem_cons_of_mem _ hx)

theorem foldl_alRemove {κ α : Type} [DecidableEq κ] (ks : List κ) (l : List (κ × α)) :
    ks.foldl (fun acc k => alRemove k acc) l
      = l.filter (fun p => decide (p.1 ∉ ks)) := by
  induction ks generalizing l with
  | nil => simp [alRemove]
  | cons k ks ih =>
    simp only [List.foldl_cons]
    rw [ih]
    unfold alRemove
    rw [List.filter_filter]
    exact list_filter_congr _ _ _ fun p hp => by
      by_cases h1 : p.1 = k <;> by_cases h2 : p.1 ∈ ks <;> simp [h1, h2]

theorem nodup_keys_eq {κ α : Type} [DecidableEq κ] (l : List (κ × α))
    (hnd : (l.map (fun p => p.1)).Nodup) :
    ∀ p ∈ l, ∀ q ∈ l, p.1 = q.1 → p = q := by
  induction l with
  | nil => intro p hp; exact absurd hp (List.not_mem_nil p)
  | cons a as ih =>
    simp only [List.map_cons, List.nodup_cons] at hnd
    obtain ⟨hna, hnd2⟩ := hnd
    intro p hp q hq hpq
    rcases List.mem_cons.mp hp with hp1 | hp2
    · rcases List.mem_cons.mp hq with hq1 | hq2
      · rw [hp1, hq1]
      · exfalso
        apply hna
        rw [← hp1, hpq]
        exact List.mem_map_of_mem _ hq2
    · rcases List.mem_cons.mp hq with hq1 | hq2
      · exfalso
        apply hna
        rw [← hq1, ← hpq]
        exact List.mem_map_of_mem _ hp2
      · exact ih hnd2 p hp2 q hq2 hpq

/-- Claim C7: with the local expense state mirroring the store, store keys
unique, and stored expense records carrying no own `id` field (as every
app-written one does), deleting category `cid` removes it from the
categories mapping and removes exactly the expenses whose `category`
equals `cid`, leaving every other expense in place. -/
theorem deleteCat_cascades (cid : String) (localExpenses : List Expense)
    (categories : List (String × CatRec)) (expenses : List (String × ExpStored))
    (hsync : localExpenses = normalizeExpenses expenses)
    (hid : ∀ p ∈ expenses, p.2.id = none)
    (hnd : (expenses.map (fun p => p.1)).Nodup) :
    (deleteCat cid localExpenses categories expenses).1 =
        categories.filter (fun p => p.1 ≠ cid) ∧
      (deleteCat cid localExpenses categories expenses).2 =
        expenses.filter (fun p => p.2.category ≠ cid) := by
  refine ⟨rfl, ?_⟩
  subst hsync
  have hloc : (normalizeExpenses expenses).filter (fun e => e.category = cid)
      = (expenses.filter (fun p => p.2.category = cid)).map
          (fun p => normExpense p.1 p.2) := by
    rw [normalizeExpenses, List.filter_map]
    rfl
  calc (deleteCat cid (normalizeExpenses expenses) categories expenses).2
      = ((normalizeExpenses expenses).filter (fun e => e.category = cid)).foldl
          (fun acc e => alRemove e.id acc) expenses := rfl
    _ = ((expenses.filter (fun p => p.2.category = cid)).map
          (fun p => normExpense p.1 p.2)).foldl
          (fun acc e => alRemove e.id acc) expenses := by rw [hloc]
    _ = (expenses.filter (fun p => p.2.category = cid)).foldl
          (fun acc p => alRemove (normExpense p.1 p.2).id acc) expenses := by
            rw [List.foldl_map]
    _ = (expenses.filter (fun p => p.2.category = cid)).foldl
          (fun acc p => alRemove p.1 acc) expenses := by
            apply list_foldl_congr
            intro b p hp
            rw [show (normExpense p.1 p.2).id = p.1 by
              simp [normExpense, hid p (List.mem_filter.mp hp).1]]
    _ = ((expenses.filter (fun p => p.2.category = cid)).map (fun p => p.1)).foldl
          (fun acc k => alRemove k acc) expenses := by rw [List.foldl_map]
    _ = expenses.filter (fun p => decide (p.1 ∉
          (expenses.filter (fun p => p.2.category = cid)).map (fun p => p.1))) :=
            foldl_alRemove _ _
    _ = expenses.filter (fun p => p.2.category ≠ cid) := by
        apply list_filter_congr
        intro p hp
        by_cases hc : p.2.category = cid
        · have hK : p.1 ∈ (expenses.filter (fun r => r.2.category = cid)).map
              (fun r => r.1) :=
            List.mem_map_of_mem _ (List.mem_filter.mpr ⟨hp, by simp [hc]⟩)
          simp [hK, hc]
        · have hK : p.1 ∉ (expenses.filter (fun r => r.2.category = cid)).map
              (fun r => r.1) := by
            intro hmem
            obtain ⟨r, hr, hr1⟩ := List.mem_map.mp hmem
            have hrf := List.mem_filter.mp hr
            have hrp : r = p := nodup_keys_eq expenses hnd r hrf.1 p hp hr1
            rw [hrp] at hrf
            exact hc (by simpa using hrf.2)
          simp [hK, hc]

/-- A second stored expense in the venue category. -/
def expStoredVenue2 : ExpStored :=
  { id := none, category := "venue", description := "Deposit", vendor := "Grand Hall",
    amount := 50, status := "paid", date := "2024-02-01",
    addedBy := "a@b.com", addedAt := 1 }

/-- A stored expense in the catering category. -/
def expStoredCatering : ExpStored :=
  { id := none, category := "catering", description := "Tasting", vendor := "Chef Co",
    amount := 40, status := "unpaid", date := "2024-03-01",
    addedBy := "a@b.com", addedAt := 2 }

/-- The venue category record. -/
def catVenue : CatRec := { id := "venue", name := "Venue", icon := "🏛", budget := 0 }

/-- The catering category record. -/
def catCatering : CatRec := { id := "catering", name := "Catering", icon := "🍽", budget := 0 }

/-- Witness for C7 at the spec's scenario: two venue expenses and one
catering expense; deleting `venue` leaves only the catering expense. -/
theorem deleteCat_cascades_witness :
    (deleteCat "venue"
        (normalizeExpenses
          [("e1", expStoredPlain), ("e2", expStoredVenue2), ("e3", expStoredCatering)])
        [("venue", catVenue), ("catering", catCatering)]
        [("e1", expStoredPlain), ("e2", expStoredVenue2), ("e3", expStoredCatering)]).1 =
      [("catering", catCatering)] ∧
    (deleteCat "venue"
        (normalizeExpenses
          [("e1", expStoredPlain), ("e2", expStoredVenue2), ("e3", expStoredCatering)])
        [("venue", catVenue), ("catering", catCatering)]
        [("e1", expStoredPlain), ("e2", expStoredVenue2), ("e3", expStoredCatering)]).2 =
      [("e3", expStoredCatering)] := by
  obtain ⟨h1, h2⟩ := deleteCat_cascades "venue"
    (normalizeExpenses
      [("e1", expStoredPlain), ("e2", expStoredVenue2), ("e3", expStoredCatering)])
    [("venue", catVenue), ("catering", catCatering)]
    [("e1", expStoredPlain), ("e2", expStoredVenue2), ("e3", expStoredCatering)]
    rfl (by decide) (by decide)
  refine ⟨?_, ?_⟩
  · rw [h1]; decide
  · rw [h2]; decide

/-! ## Category key invariant (claim C10) -/

/-- The record `addCategory` generates for name `"Honey Moon"` with time
suffix `"ab12"`. -/
def catHoneymoon : CatRec :=
  { id := "honey-moon-ab12", name := "Honey Moon", icon := "🌙", budget := 0 }

/-- Claim C10: the nine seed categories are keyed by their own record's
`id` at bootstrap; `addCategory` writes its record at `categories/{id}`
with the same generated id inside the record; and for any mapping with
this key-equals-id invariant, values-only normalization agrees with
key-injected normalization. -/
theorem category_key_matches_id :
    (∀ p ∈ seedCategoriesObject, p.1 = p.2.id) ∧
      seedCategoriesObject.length = 9 ∧
      (∀ n i t k c, addCategory n i t = some (k, c) → k = c.id) ∧
      (∀ m : List (String × CatRec), (∀ p ∈ m, p.1 = p.2.id) →
        normalizeCategories m = categoriesKeyInjected m) := by
  refine ⟨by decide, rfl, ?_, ?_⟩
  · intro n i t k c h
    by_cases hb : trimStr n = ""
    · simp [addCategory, hb] at h
    · simp only [addCategory, hb, if_false, Option.some.injEq, Prod.mk.injEq] at h
      rw [← h.1, ← h.2]
  · intro m hm
    unfold normalizeCategories categoriesKeyInjected
    apply list_map_congr
    intro p hp
    rw [hm p hp]

/-- Witness for C10: a concrete `addCategory` call and the agreement of the
two normalizations on the seed mapping. -/
theorem category_key_matches_id_witness :
    ("honey-moon-ab12" : String) = catHoneymoon.id ∧
      normalizeCategories seedCategoriesObject = categoriesKeyInjected seedCategoriesObject :=
  ⟨category_key_matches_id.2.2.1 "Honey Moon" "🌙" "ab12" "honey-moon-ab12" catHoneymoon
      (by decide),
    category_key_matches_id.2.2.2 seedCategoriesObject (by decide)⟩

/-! ## CSV round trip (claim C8) -/

theorem escapeField_append (f rest : List Char) :
    escapeField f ++ rest = '\"' :: (escapeQuotes f ++ '\"' :: rest) := by
  simp [escapeField]

theorem parseQuotedBody_escape (f rest : List Char) (h : rest.head? ≠ some '\"') :
    parseQuotedBody (escapeQuotes f ++ '\"' :: rest) = some (f, rest) := by
  induction f with
  | nil =>
    cases rest with
    | nil => simp [escapeQuotes, parseQuotedBody]
    | cons c rs =>
      have hc : c ≠ '\"' := by
        intro hh
        exact h (by rw [hh]; rfl)
      simp [escapeQuotes, parseQuotedBody, hc]
  | cons a as ih =>
    by_cases ha : a = '\"'
    · subst ha
      simp only [escapeQuotes, if_pos rfl, List.cons_append]
      simp [parseQuotedBody, ih]
    · simp only [escapeQuotes, if_neg ha, List.cons_append]
      rw [parseQuotedBody.eq_def]
      simp [ha, ih]

/-- Number of cells in a table. -/
def cellCount (rows : List (List (List Char))) : Nat :=
  (rows.map List.length).sum

theorem escapeField_length (f : List Char) : 2 ≤ (escapeField f).length := by
  simp only [escapeField, List.length_cons, List.length_append]
  omega

theorem encodeCells_nil : encodeCells [] = [] := rfl

theorem encodeCells_single (f : List Char) : encodeCells [f] = escapeField f := rfl

theorem encodeCells_cons (f g : List Char) (gs : List (List Char)) :
    encodeCells (f :: g :: gs) = escapeField f ++ ',' :: encodeCells (g :: gs) := rfl

theorem encodeTable_nil : encodeTable [] = [] := rfl

theorem encodeTable_single (r : List (List Char)) : encodeTable [r] = encodeCells r := rfl

theorem encodeTable_cons (r r2 : List (List Char)) (rest : List (List (List Char))) :
    encodeTable (r :: r2 :: rest) = encodeCells r ++ '\n' :: encodeTable (r2 :: rest) := rfl

theorem cells_length_le (cells : List (List Char)) :
    cells.length ≤ (encodeCells cells).length := by
  induction cells with
  | nil => simp [encodeCells_nil]
  | cons f fs ih =>
    cases fs with
    | nil =>
      rw [encodeCells_single]
      have := escapeField_length f
      simp only [List.length_singleton]
      omega
    | cons g gs =>
      rw [encodeCells_cons]
      have h1 := escapeField_length f
      simp only [List.length_cons, List.length_append] at *
      omega

theorem table_cellCount_le (rows : List (List (List Char))) :
    cellCount rows ≤ (encodeTable rows).length := by
  induction rows with
  | nil => simp [cellCount, encodeTable_nil]
  | cons r rest ih =>
    cases rest with
    | nil =>
      simp only [cellCount, List.map_cons, List.map_nil, List.sum_cons, List.sum_nil,
        encodeTable_single, Nat.add_zero]
      exact cells_length_le r
    | cons r2 rest2 =>
      rw [encodeTable_cons]
      have h1 := cells_length_le r
      simp only [cellCount, List.map_cons, List.sum_cons, List.length_append,
        List.length_cons] at *
      omega

theorem parseCSV_encodeTable (fuel : Nat) (rows : List (List (List Char)))
    (hne : rows ≠ []) (hr : ∀ r ∈ rows, r ≠ []) (hfuel : cellCount rows ≤ fuel) :
    parseCSV fuel (encodeTable rows) = some rows := by
  induction fuel generalizing rows with
  | zero =>
    exfalso
    obtain ⟨row, rest, rfl⟩ : ∃ row rest, rows = row :: rest := by
      cases rows with
      | nil => exact absurd rfl hne
      | cons a b => exact ⟨a, b, rfl⟩
    obtain ⟨f, fs, rfl⟩ : ∃ f fs, row = f :: fs := by
      cases hrow : row with
      | nil => exact absurd hrow (hr row (List.mem_cons_self _ _))
      | cons a b => exact ⟨a, b, rfl⟩
    simp [cellCount] at hfuel
  | succ n ih =>
    obtain ⟨row, rest, rfl⟩ : ∃ row rest, rows = row :: rest := by
      cases rows with
      | nil => exact absurd rfl hne
      | cons a b => exact ⟨a, b, rfl⟩
    have hrow0 := hr row (List.mem_cons_self _ _)
    obtain ⟨f, fs, rfl⟩ : ∃ f fs, row = f :: fs := by
      cases hrow : row with
      | nil => exact absurd hrow hrow0
      | cons a b => exact ⟨a, b, rfl⟩
    cases rest with
    | nil =>
      cases fs with
      | nil =>
        rw [encodeTable_single, encodeCells_single,
          show escapeField f = escapeField f ++ [] by simp, escapeField_append]
        simp [parseCSV, parseQuotedBody_escape f [] (by simp)]
      | cons g gs =>
        rw [encodeTable_single, encodeCells_cons, escapeField_append]
        have hrec : parseCSV n (encodeTable [g :: gs]) = some [g :: gs] := by
          apply ih [g :: gs] (by simp)
          · intro r hrm
            simp only [List.mem_singleton] at hrm
            subst hrm
            simp
          · simp only [cellCount, List.map_cons, List.map_nil, List.sum_cons,
              List.sum_nil, List.length_cons] at hfuel ⊢
            omega
        rw [encodeTable_single] at hrec
        simp [parseCSV, parseQuotedBody_escape f (',' :: encodeCells (g :: gs)) (by simp), hrec]
    | cons r2 rest2 =>
      have hrest : ∀ r ∈ r2 :: rest2, r ≠ [] :=
        fun r hrm => hr r (List.mem_cons_of_mem _ hrm)
      cases fs with
      | nil =>
        rw [encodeTable_cons, encodeCells_single, escapeField_append]
        have hrec : parseCSV n (encodeTable (r2 :: rest2)) = some (r2 :: rest2) := by
          apply ih (r2 :: rest2) (by simp) hrest
          simp only [cellCount, List.map_cons, List.sum_cons, List.length_cons,
            List.length_nil] at hfuel ⊢
          omega
        simp [parseCSV,
          parseQuotedBody_escape f ('\n' :: encodeTable (r2 :: rest2)) (by simp), hrec]
      | cons g gs =>
        rw [encodeTable_cons, encodeCells_cons, List.append_assoc, List.cons_append,
          ← encodeTable_cons (g :: gs) r2 rest2, escapeField_append]
        have hrec : parseCSV n (encodeTable ((g :: gs) :: r2 :: rest2))
            = some ((g :: gs) :: r2 :: rest2) := by
          apply ih ((g :: gs) :: r2 :: rest2) (by simp)
          · intro r hrm
            rcases List.mem_cons.mp hrm with h1 | h2
            · subst h1; simp
            · exact hrest r h2
          · simp only [cellCount, List.map_cons, List.sum_cons, List.length_cons] at hfuel ⊢
            omega
        simp [parseCSV,
          parseQuotedBody_escape f (',' :: encodeTable ((g :: gs) :: r2 :: rest2)) (by simp),
          hrec]

theorem find_rev_nodup (l : List CatRec) (x : String)
    (hnd : (l.map (fun c => c.id)).Nodup) :
    l.reverse.find? (fun c => c.id = x) = l.find? (fun c => c.id = x) := by
  induction l with
  | nil => rfl
  | cons a as ih =>
    simp only [List.map_cons, List.nodup_cons] at hnd
    obtain ⟨hna, hnd2⟩ := hnd
    rw [List.reverse_cons, List.find?_append, ih hnd2]
    by_cases hax : a.id = x
    · have hnone : as.find? (fun c => decide (c.id = x)) = none := by
        rw [List.find?_eq_none]
        intro c hc hcx
        apply hna
        rw [show a.id = c.id by rw [hax]; exact (of_decide_eq_true hcx).symm]
        exact List.mem_map_of_mem _ hc
      rw [hnone]
      simp [List.find?, hax]
    · simp [List.find?, hax]

theorem resolve_eq_spec (categories : List CatRec) (x : String)
    (hname : ∀ c ∈ categories, c.name ≠ "")
    (hnd : (categories.map (fun c => c.id)).Nodup) :
    resolveCatName categories x = specResolveCatName categories x := by
  rw [resolveCatName, specResolveCatName, find_rev_nodup categories x hnd]
  cases hf : categories.find? (fun c => c.id = x) with
  | none => rfl
  | some c =>
    have hc : c ∈ categories := List.mem_of_find?_eq_some hf
    simp [hname c hc]

theorem list_map_mk_data (r : List String) :
    (r.map String.data).map (fun l => (⟨l⟩ : String)) = r := by
  rw [List.map_map, show ((fun l => (⟨l⟩ : String)) ∘ String.data) = id from funext fun s => rfl,
    List.map_id]

/-- Claim C8 (amended): for category lists with pairwise-distinct ids and
non-empty display names, parsing the exported CSV yields the header
followed, in order, by one tuple per expense of (display name of its
category, falling back to the raw id when no category matches; description;
vendor; amount to two decimals; status; date), with quoted/comma-containing
values preserved exactly. -/
theorem csv_round_trip_amended (expenses : List Expense) (categories : List CatRec)
    (hname : ∀ c ∈ categories, c.name ≠ "")
    (hnd : (categories.map (fun c => c.id)).Nodup) :
    parseCSVtext (exportCSV expenses categories) =
      some (["Category", "Description", "Vendor", "Amount", "Status", "Date"] ::
        expenses.map (fun e =>
          [specResolveCatName categories e.category, e.description, e.vendor,
            toFixed2 e.amount, e.status, e.date])) := by
  have hspec : csvRows expenses categories =
      ["Category", "Description", "Vendor", "Amount", "Status", "Date"] ::
        expenses.map (fun e =>
          [specResolveCatName categories e.category, e.description, e.vendor,
            toFixed2 e.amount, e.status, e.date]) := by
    rw [csvRows]
    congr 1
    exact list_map_congr expenses _ _ fun e he => by
      rw [resolve_eq_spec categories e.category hname hnd]
  set T := (csvRows expenses categories).map (fun r => r.map String.data) with hT
  have hTne : T ≠ [] := by
    rw [hT, hspec]
    simp
  have hTr : ∀ r ∈ T, r ≠ [] := by
    intro r hrm
    rw [hT, hspec] at hrm
    simp only [List.map_cons, List.mem_cons, List.mem_map] at hrm
    rcases hrm with h1 | ⟨e2, he2, h2⟩
    · subst h1; simp
    · obtain ⟨e3, he3, h4⟩ := he2
      rw [← h2, ← h4]
      simp
  have hparse : parseCSV ((encodeTable T).length + 1) (encodeTable T) = some T := by
    apply parseCSV_encodeTable _ _ hTne hTr
    have := table_cellCount_le T
    omega
  have hdata : (exportCSV expenses categories).data = encodeTable T := rfl
  rw [parseCSVtext, hdata, hparse, Option.map_some']
  congr 1
  rw [hT, List.map_map]
  have hcomp : ((fun r => r.map (fun c => (⟨c⟩ : String))) ∘
      fun r : List String => r.map String.data) = id := by
    funext r
    exact list_map_mk_data r
  rw [hcomp, List.map_id, hspec]

/-- A category whose display name is the empty string. -/
def catBlankName : CatRec := { id := "x", name := "", icon := "i", budget := 0 }

/-- Two categories sharing the id `dup` with different names. -/
def catDupA : CatRec := { id := "dup", name := "A", icon := "i", budget := 0 }

/-- Second category with the duplicated id. -/
def catDupB : CatRec := { id := "dup", name := "B", icon := "i", budget := 0 }

/-- An expense referencing category id `x`. -/
def expRefX : Expense :=
  { id := "e", category := "x", description := "d", vendor := "v",
    amount := 1, status := "unpaid", date := "2024-01-01",
    addedBy := "a@b.c", addedAt := 0 }

/-- An expense referencing the duplicated category id. -/
def expRefDup : Expense :=
  { id := "e", category := "dup", description := "d", vendor := "v",
    amount := 1, status := "unpaid", date := "2024-01-01",
    addedBy := "a@b.c", addedAt := 0 }

/-- Claim C8 counterexample: the export's category cell is
`catMap[e.category] || e.category`, so a matching category with an empty
display name falls back to the raw id (the row holds `"x"`, not the
display name `""`), and with duplicated ids `Object.fromEntries` keeps the
last entry (the row holds `"B"`) while resolving to "its display name"
would give the first match (`"A"`). -/
theorem csv_category_resolution_quirks :
    csvRows [expRefX] [catBlankName] =
      [["Category", "Description", "Vendor", "Amount", "Status", "Date"],
        ["x", "d", "v", toFixed2 1, "unpaid", "2024-01-01"]] ∧
      specResolveCatName [catBlankName] "x" = "" ∧ ("x" : String) ≠ "" ∧
      csvRows [expRefDup] [catDupA, catDupB] =
        [["Category", "Description", "Vendor", "Amount", "Status", "Date"],
          ["B", "d", "v", toFixed2 1, "unpaid", "2024-01-01"]] ∧
      specResolveCatName [catDupA, catDupB] "dup" = "A" ∧ ("B" : String) ≠ "A" := by
  refine ⟨rfl, by decide, by decide, rfl, by decide, by decide⟩

/-- A well-formed category for the round-trip witness; its name contains a
quote and a comma to exercise the quoting. -/
def catQuoted : CatRec := { id := "venue", name := "Hall \"A\", Main", icon := "🏛", budget := 0 }

/-- An expense whose fields contain quotes and commas. -/
def expQuoted : Expense :=
  { id := "e", category := "venue", description := "Deposit, first \"half\"", vendor := "Q,V",
    amount := 150, status := "paid", date := "2024-01-01",
    addedBy := "a@b.c", addedAt := 0 }

/-- Witness for the amended C8 with quotes and commas in the data. -/
theorem csv_round_trip_amended_witness :
    parseCSVtext (exportCSV [expQuoted] [catQuoted]) =
      some [["Category", "Description", "Vendor", "Amount", "Status", "Date"],
        [specResolveCatName [catQuoted] "venue", "Deposit, first \"half\"", "Q,V",
          toFixed2 150, "paid", "2024-01-01"]] :=
  csv_round_trip_amended [expQuoted] [catQuoted] (by decide) (by decide)

end WeddingBudget
